import Mathlib

/-!
Verification of the native-to-webview-audio playback engine.

The development shallowly embeds the playback worklet core:
`src/playback-worklet/config.ts`, `src/playback-worklet/Lock.ts`,
`src/playback-worklet/CircularBuffer.ts`, the `utils` helpers and the
`PlaybackWorklet` processor (the repository has two variants of the
processor; the embedding follows the variant with the richer responses,
using the turn-counted `Lock` for the seek gate as the other variant wires
it).

JS numbers are modelled as exact rationals (`ℚ`); all values manipulated
here are small dyadic rationals on which IEEE double arithmetic is exact.
Array indices and chunk counters are `Int`/`Nat`.  Audio samples are only
ever moved, never computed with, so they are modelled as integers.
-/

namespace NativeToWebviewAudio

/-- Samples are opaque payload values (Float32 in the source); the code only
copies them, so they are modelled as integers. -/
abbrev Sample := Int

/-! Constants from `config.ts`. -/

def WEB_AUDIO_BLOCK_SIZE : Nat := 128

def CHUNK_SIZE : Nat := 200

def CIRCULAR_BUFFER_SIZE_IN_CHUNKS : Nat := 10

def CHANNEL_COUNT : Nat := 2

def SAMPLE_RATE : Nat := 44100

def READ_WRITE_POINTER_DISTANCE : Nat := 5 * CHUNK_SIZE

/-- Truncation toward zero of a rational (JS `Math.trunc`, the rounding used
by the JS `%` operator). -/
def ratTrunc (q : ℚ) : Int := if q < 0 then ⌈q⌉ else ⌊q⌋

/-- The JS remainder operator `a % b`: the sign follows the dividend.
`jsRem a b = a - b * trunc (a / b)`.  (For `b = 0` JS yields NaN; that case
is never reached by the embedded code under the stated hypotheses.) -/
def jsRem (a b : ℚ) : ℚ := a - b * (ratTrunc (a / b) : ℚ)

/-- JS `Math.round`: round half toward positive infinity. -/
def jsRound (q : ℚ) : Int := ⌊q + 1 / 2⌋

/-- `TypedArray.prototype.set`: overwrite the prefix of `target` with
`source`, keeping the tail of `target` beyond `source.length`.  (JS throws
when the source is longer than the target; the embedded operations only ever
pass sources of at most the bucket length.) -/
def setArray (target source : List Sample) : List Sample :=
  source ++ target.drop source.length

/-! The `utils` object. -/

namespace utils

def secondToFrame (seconds : ℚ) (sampleRate : Nat) (chunkSize : Nat) : ℚ :=
  seconds * sampleRate / chunkSize

def frameToSecond (currentFrame : ℚ) (sampleRate : Nat) (hopSize : Nat) : ℚ :=
  currentFrame * hopSize / sampleRate

def isNotNullish (value : Option Int) : Bool := value.isSome

end utils

/-! `CircularBuffer.ts`.  The nested per-channel bucket arrays are modelled
as a total function `channel → bucket index → samples`; the constructor
fills the `bucketsCount` buckets of each of the `channelCount` channels with
zeroed hops and leaves every other index empty (JS reads of missing indices
yield `undefined` and are never performed by the embedded operations). -/

structure CircularBuffer where
  chunkSize : Nat
  circularBufferSizeInChunks : Nat
  channelCount : Nat
  hopSize : Nat
  bucketWritePointer : Int
  buffer : Nat → Int → List Sample

namespace CircularBuffer

/-- `_bucketsCount = chunkSize * circularBufferSizeInChunks`, computed in the
constructor and constant afterwards. -/
def bucketsCount (cb : CircularBuffer) : Nat :=
  cb.chunkSize * cb.circularBufferSizeInChunks

/-- The constructor: write pointer 0, every bucket a zeroed hop. -/
def make (chunkSize circularBufferSizeInChunks channelCount hopSize : Nat) :
    CircularBuffer where
  chunkSize := chunkSize
  circularBufferSizeInChunks := circularBufferSizeInChunks
  channelCount := channelCount
  hopSize := hopSize
  bucketWritePointer := 0
  buffer := fun c b =>
    if c < channelCount ∧ 0 ≤ b ∧ b < (chunkSize * circularBufferSizeInChunks : Nat) then
      List.replicate hopSize 0
    else []

/-- `_hopToPositionPointer`: `Math.floor(hopPosition % this._bucketsCount)`. -/
def _hopToPositionPointer (cb : CircularBuffer) (hopPosition : ℚ) : Int :=
  ⌊jsRem hopPosition (cb.bucketsCount : ℚ)⌋

/-- `peek`: read the bucket at the converted position from every channel. -/
def peek (cb : CircularBuffer) (setHop : ℚ) : List (List Sample) :=
  (List.range cb.channelCount).map fun c => cb.buffer c (cb._hopToPositionPointer setHop)

/-- The write loop of `receive`: for `j` running over `count` hops, write
`data[channel].subarray(j*hopSize, (j+1)*hopSize)` into the bucket at
`currentBucket` for every channel, then step `currentBucket` to
`(currentBucket + 1) % bucketsCount`.  Returns the final buffer and the
final `currentBucket`. -/
def receiveGo (channelCount hopSize : Nat) (bucketsCount : Int)
    (data : List (List Sample)) :
    Nat → Nat → Int → (Nat → Int → List Sample) → (Nat → Int → List Sample) × Int
  | _, 0, currentBucket, buf => (buf, currentBucket)
  | j, count + 1, currentBucket, buf =>
      receiveGo channelCount hopSize bucketsCount data (j + 1) count
        ((currentBucket + 1) % bucketsCount)
        (fun c b =>
          if c < channelCount ∧ b = currentBucket then
            setArray (buf c b) (((data.getD c []).drop (j * hopSize)).take hopSize)
          else buf c b)

/-- `receive`: reject a channel-count mismatch, reject a first-channel length
that is not an integral number of hops (`Math.round(forwardCount) !==
forwardCount`), otherwise write `forwardCount` hops starting at the write
pointer and store the stepped pointer.  The second component records
whether `console.error` was reached (the delivery was discarded). -/
def receive (cb : CircularBuffer) (data : List (List Sample)) :
    CircularBuffer × Bool :=
  if data.length ≠ cb.channelCount then (cb, true)
  else
    if (jsRound (((data.headD []).length : ℚ) / (cb.hopSize : ℚ)) : ℚ) ≠
        ((data.headD []).length : ℚ) / (cb.hopSize : ℚ) then (cb, true)
    else
      let fc : Nat := (data.headD []).length / cb.hopSize
      let r := receiveGo cb.channelCount cb.hopSize (cb.bucketsCount : Int) data 0 fc
        cb.bucketWritePointer cb.buffer
      ({ cb with buffer := r.1, bucketWritePointer := r.2 }, false)

/-- `readAboutToOvertakeWrite`: circular distance from the read position to
the write pointer below `READ_WRITE_POINTER_DISTANCE`.  (The JS `%` agrees
with `Int.emod` here because the dividend is nonnegative whenever the write
pointer is in range.) -/
def readAboutToOvertakeWrite (cb : CircularBuffer) (currentHop : ℚ) : Bool :=
  decide ((cb.bucketWritePointer - cb._hopToPositionPointer currentHop +
      (cb.bucketsCount : Int)) % (cb.bucketsCount : Int) <
    (READ_WRITE_POINTER_DISTANCE : Int))

/-- `setWritePointer`: round the hop position down to the start of its chunk
(`Math.floor(hopPosition / chunkSize) * chunkSize`) and convert that to a
bucket index. -/
def setWritePointer (cb : CircularBuffer) (hopPosition : ℚ) : CircularBuffer :=
  { cb with bucketWritePointer :=
      cb._hopToPositionPointer ((⌊hopPosition / (cb.chunkSize : ℚ)⌋ * (cb.chunkSize : Int) : Int) : ℚ) }

/-- `clear`: reset the write pointer, keep the storage. -/
def clear (cb : CircularBuffer) : CircularBuffer :=
  { cb with bucketWritePointer := 0 }

end CircularBuffer

/-! `Lock.ts`. -/

structure Lock where
  _lock : Bool
  _turnCount : Int
  _turn : Int
deriving DecidableEq

namespace Lock

/-- The constructor throws exactly when `turnCount === 0`; modelled as
`none` on that input. -/
def make (turnCount : Int) : Option Lock :=
  if turnCount = 0 then none else some ⟨false, turnCount, 0⟩

/-- `lock()`: raise the barrier and reset the counter. -/
def lock (l : Lock) : Lock := { l with _lock := true, _turn := 0 }

/-- `isLocked` getter. -/
def isLocked (l : Lock) : Bool := l._lock

/-- `attemptUnlock()`: a no-op while unlocked; otherwise count the turn and
drop the barrier once the counter reaches the threshold. -/
def attemptUnlock (l : Lock) : Lock :=
  if l._lock = false then l
  else
    if l._turn + 1 ≥ l._turnCount then { l with _lock := false, _turn := 0 }
    else { l with _turn := l._turn + 1 }

end Lock

/-- Iterated `attemptUnlock`. -/
def unlockIter : Nat → Lock → Lock
  | 0, l => l
  | n + 1, l => unlockIter n l.attemptUnlock

/-! The message vocabulary of `protocol.type.ts`. -/

inductive PlaybackToMainThreadEvent where
  | requestNextChunk (chunkIndex : Int)
  | positionReport (positionAsSeconds : ℚ)
  | signalEnd
  | responsePaused
  | responsePrepared
  | responseStopped
  | responsePlayed
deriving DecidableEq

inductive MainThreadToPlaybackEvent where
  | responseNextChunk (chunkIndex : Int) (chunks : List (List (List Sample)))
  | requestPause
  | requestStop
  | requestPlay
  | requestSeek (seconds : ℚ)
  | requestPrepare (duration : ℚ)

/-! The `PlaybackWorklet` processor.  `process` returns the next state, the
messages posted to the port during the tick, and the hop copied to the host
output (`none` when the tick returned without rendering). -/

structure PlaybackWorklet where
  _buffer : CircularBuffer
  _isPaused : Bool
  _seekLock : Lock
  _isClosed : Bool
  _pendingChunk : Option Int
  _currentChunk : Int
  _currentFrame : ℚ
  _currentSecond : ℚ
  _duration : ℚ

namespace PlaybackWorklet

/-- The field initializers of the processor (before the constructor body
runs).  The seek gate is a single-turn lock. -/
def initState : PlaybackWorklet where
  _buffer := CircularBuffer.make CHUNK_SIZE CIRCULAR_BUFFER_SIZE_IN_CHUNKS CHANNEL_COUNT
    WEB_AUDIO_BLOCK_SIZE
  _isPaused := true
  _seekLock := ⟨false, 1, 0⟩
  _isClosed := false
  _pendingChunk := some 0
  _currentChunk := 0
  _currentFrame := 0
  _currentSecond := 0
  _duration := 0

/-- `_hasReachedEnd`: `currentSecond >= duration`. -/
def _hasReachedEnd (w : PlaybackWorklet) : Bool :=
  decide (w._duration ≤ w._currentSecond)

/-- `_forwardPosition`: step the frame counter and derive the second. -/
def _forwardPosition (w : PlaybackWorklet) : PlaybackWorklet :=
  { w with
    _currentFrame := w._currentFrame + 1
    _currentSecond := utils.frameToSecond (w._currentFrame + 1) SAMPLE_RATE WEB_AUDIO_BLOCK_SIZE }

/-- `_maybeRequestMore(forced)`: skip unless forced when a request is already
pending or the reader is not about to overtake the writer; otherwise mark
`currentChunk + 1` pending and post `request:nextChunk` for it.  (The
`setTimeout` recovery scheduled in one source variant is an asynchronous
event outside the synchronous step modelled here.) -/
def _maybeRequestMore (w : PlaybackWorklet) (forced : Bool) :
    PlaybackWorklet × List PlaybackToMainThreadEvent :=
  if forced = false ∧
      (utils.isNotNullish w._pendingChunk = true ∨
        w._buffer.readAboutToOvertakeWrite w._currentFrame = false) then
    (w, [])
  else
    ({ w with _pendingChunk := some (w._currentChunk + 1) },
      [.requestNextChunk (w._currentChunk + 1)])

/-- `_handleMessage`: the transport command handler. -/
def _handleMessage (w : PlaybackWorklet) (e : MainThreadToPlaybackEvent) :
    PlaybackWorklet × List PlaybackToMainThreadEvent :=
  match e with
  | .requestPause => ({ w with _isPaused := true }, [.responsePaused])
  | .requestPlay => ({ w with _isPaused := false }, [.responsePlayed])
  | .requestPrepare duration =>
      ({ w with _isClosed := false, _duration := duration }, [.responsePrepared])
  | .requestSeek seconds =>
      let currentFrame := utils.secondToFrame seconds SAMPLE_RATE WEB_AUDIO_BLOCK_SIZE
      let chunkToRequest : Int := ⌊currentFrame / (CHUNK_SIZE : ℚ)⌋
      let w1 : PlaybackWorklet :=
        { w with
          _currentSecond := seconds
          _currentFrame := currentFrame
          _currentChunk := chunkToRequest - 1
          _buffer := w._buffer.setWritePointer currentFrame
          _seekLock := w._seekLock.lock }
      let r := w1._maybeRequestMore true
      (r.1, [.positionReport w1._currentSecond] ++ r.2)
  | .requestStop =>
      ({ w with
          _isClosed := true
          _isPaused := true
          _currentChunk := 0
          _currentFrame := 0
          _currentSecond := 0
          _pendingChunk := some 0
          _buffer := w._buffer.clear },
        [.responseStopped])
  | .responseNextChunk chunkIndex chunks =>
      if w._pendingChunk ≠ some chunkIndex then (w, [])
      else
        let w1 : PlaybackWorklet :=
          { w with
            _pendingChunk := none
            _currentChunk := chunkIndex
            _buffer := (w._buffer.receive (chunks.headD [])).1 }
        let w2 : PlaybackWorklet :=
          if w1._seekLock.isLocked = true then
            { w1 with _seekLock := w1._seekLock.attemptUnlock }
          else w1
        (w2, [])

/-- One render tick. -/
def process (w : PlaybackWorklet) :
    PlaybackWorklet × List PlaybackToMainThreadEvent × Option (List (List Sample)) :=
  if w._isPaused = true ∨ w._isClosed = true ∨ w._seekLock.isLocked = true then
    (w, [], none)
  else if w._hasReachedEnd = true then
    ({ w with _isPaused := true }, [.signalEnd], none)
  else
    let peeked := w._buffer.peek w._currentFrame
    let w1 := w._forwardPosition
    let r := w1._maybeRequestMore false
    (r.1, [.positionReport w1._currentSecond] ++ r.2, some peeked)

end PlaybackWorklet

/-- Iterated render ticks, collecting the messages of every tick. -/
def processIter (w : PlaybackWorklet) :
    Nat → PlaybackWorklet × List PlaybackToMainThreadEvent
  | 0 => (w, [])
  | n + 1 =>
      let r := w.process
      let rest := processIter r.1 n
      (rest.1, r.2.1 ++ rest.2)

/-! Arithmetic bridges between the JS-style operations and `Int`/`Nat`
arithmetic. -/

/-- The JS remainder of a nonnegative integer by a natural number is the
`Int.emod`. -/
theorem jsRem_intCast (a : Int) (N : Nat) (ha : 0 ≤ a) :
    jsRem (a : ℚ) (N : ℚ) = ((a % (N : Int) : Int) : ℚ) := by
  rcases Nat.eq_zero_or_pos N with hN | hN
  · subst hN
    simp [jsRem, ratTrunc]
  · have hq : ¬ ((a : ℚ) / (N : ℚ) < 0) := by
      push_neg
      positivity
    have hfloor : ⌊(a : ℚ) / (N : ℚ)⌋ = a / (N : Int) :=
      Rat.floor_intCast_div_natCast a N
    have hdef : a % (N : Int) = a - (N : Int) * (a / (N : Int)) := Int.emod_def a N
    rw [jsRem, ratTrunc, if_neg hq, hfloor, hdef]
    push_cast
    ring

/-- `_hopToPositionPointer` of a nonnegative integer hop position is the
position modulo the bucket count. -/
theorem hopToPositionPointer_intCast (cb : CircularBuffer) (a : Int) (ha : 0 ≤ a) :
    cb._hopToPositionPointer ((a : Int) : ℚ) = a % (cb.bucketsCount : Int) := by
  rw [CircularBuffer._hopToPositionPointer, jsRem_intCast a cb.bucketsCount ha,
    Int.floor_intCast]

/-- `_hopToPositionPointer` of a natural hop position. -/
theorem hopToPositionPointer_natCast (cb : CircularBuffer) (h : Nat) :
    cb._hopToPositionPointer ((h : Nat) : ℚ) = ((h % cb.bucketsCount : Nat) : Int) := by
  have h1 : ((h : Nat) : ℚ) = (((h : Int) : Int) : ℚ) := by push_cast; ring
  rw [h1, hopToPositionPointer_intCast cb (h : Int) (Int.ofNat_nonneg h)]
  push_cast
  ring

/-- Adding inside an `emod` absorbs an outer `emod` on the left summand. -/
theorem emod_add_left_emod (a b n : Int) : (a % n + b) % n = (a + b) % n := by
  have h1 : a % n + b = a + b + -(a / n) * n := by
    rw [Int.emod_def]
    ring
  rw [h1, Int.add_mul_emod_self]

/-- Two positions at circular distance `s`, `0 < s < N`, fall into distinct
buckets. -/
theorem emod_add_ne (cur s N : Int) (h0 : 0 < s) (hsN : s < N) :
    (cur + s) % N ≠ cur % N := by
  intro h
  have hz : (cur + s - cur) % N = 0 :=
    (Int.emod_emod_of_dvd _ dvd_rfl ▸ (Int.emod_eq_emod_iff_emod_sub_eq_zero).mp h)
  have hs : s % N = 0 := by
    have : cur + s - cur = s := by ring
    rwa [this] at hz
  have hdvd : N ∣ s := Int.dvd_of_emod_eq_zero hs
  have := Int.le_of_dvd h0 hdvd
  omega

/-! Characterization of the `receive` write loop. -/

/-- The write loop steps the bucket pointer by one per hop, modulo the
bucket count. -/
theorem receiveGo_writePointer (cc hop : Nat) (N : Int) (data : List (List Sample))
    (hN : 0 < N) :
    ∀ (count j : Nat) (cur : Int) (buf : Nat → Int → List Sample),
      0 ≤ cur → cur < N →
      (CircularBuffer.receiveGo cc hop N data j count cur buf).2 = (cur + count) % N := by
  intro count
  induction count with
  | zero =>
      intro j cur buf h0 hlt
      rw [CircularBuffer.receiveGo]
      simp [Int.emod_eq_of_lt h0 hlt]
  | succ n ih =>
      intro j cur buf h0 hlt
      rw [CircularBuffer.receiveGo]
      have h0' : 0 ≤ (cur + 1) % N := Int.emod_nonneg _ (ne_of_gt hN)
      have hlt' : (cur + 1) % N < N := Int.emod_lt_of_pos _ hN
      rw [ih (j + 1) ((cur + 1) % N) _ h0' hlt', emod_add_left_emod]
      push_cast
      ring_nf

/-- A bucket missed by every step of the write loop keeps its contents. -/
theorem receiveGo_untouched (cc hop : Nat) (N : Int) (data : List (List Sample))
    (hN : 0 < N) :
    ∀ (count j : Nat) (cur : Int) (buf : Nat → Int → List Sample) (c : Nat) (b : Int),
      0 ≤ cur → cur < N →
      (∀ i : Nat, i < count → (cur + i) % N ≠ b) →
      (CircularBuffer.receiveGo cc hop N data j count cur buf).1 c b = buf c b := by
  intro count
  induction count with
  | zero =>
      intro j cur buf c b h0 hlt hmiss
      rw [CircularBuffer.receiveGo]
  | succ n ih =>
      intro j cur buf c b h0 hlt hmiss
      rw [CircularBuffer.receiveGo]
      have h0' : 0 ≤ (cur + 1) % N := Int.emod_nonneg _ (ne_of_gt hN)
      have hlt' : (cur + 1) % N < N := Int.emod_lt_of_pos _ hN
      have hmiss' : ∀ i : Nat, i < n → ((cur + 1) % N + i) % N ≠ b := by
        intro i hi
        rw [emod_add_left_emod]
        have := hmiss (i + 1) (by omega)
        have hcast : cur + ((i : Nat) + 1 : Nat) = cur + 1 + i := by push_cast; ring
        rwa [hcast] at this
      rw [ih (j + 1) ((cur + 1) % N) _ c b h0' hlt' hmiss']
      have hb : b ≠ cur := by
        have := hmiss 0 (by omega)
        simp only [Nat.cast_zero, add_zero] at this
        rw [Int.emod_eq_of_lt h0 hlt] at this
        exact fun hb => this hb.symm
      simp [hb]

/-- When at most `N` hops are written, every hop of the loop ends up in its
own bucket with the matching slice of the delivered data written over the
previous contents. -/
theorem receiveGo_written (cc hop : Nat) (N : Int) (data : List (List Sample))
    (hN : 0 < N) :
    ∀ (count j : Nat) (cur : Int) (buf : Nat → Int → List Sample) (c i : Nat),
      0 ≤ cur → cur < N → c < cc → i < count → (count : Int) ≤ N →
      (CircularBuffer.receiveGo cc hop N data j count cur buf).1 c ((cur + i) % N) =
        setArray (buf c ((cur + i) % N))
          (((data.getD c []).drop ((j + i) * hop)).take hop) := by
  intro count
  induction count with
  | zero =>
      intro j cur buf c i h0 hlt hc hi hcount
      omega
  | succ n ih =>
      intro j cur buf c i h0 hlt hc hi hcount
      rw [CircularBuffer.receiveGo]
      have h0' : 0 ≤ (cur + 1) % N := Int.emod_nonneg _ (ne_of_gt hN)
      have hlt' : (cur + 1) % N < N := Int.emod_lt_of_pos _ hN
      rcases Nat.eq_zero_or_pos i with hi0 | hipos
      · subst hi0
        simp only [Nat.cast_zero, add_zero]
        rw [Int.emod_eq_of_lt h0 hlt]
        have hmiss : ∀ i' : Nat, i' < n → ((cur + 1) % N + i') % N ≠ cur := by
          intro i' hi'
          rw [emod_add_left_emod]
          have h1 : cur + 1 + (i' : Int) = cur + (1 + i') := by ring
          rw [h1]
          have hne : (cur + (1 + (i' : Int))) % N ≠ cur % N := by
            apply emod_add_ne
            · omega
            · have : (i' : Int) < (n : Int) := by exact_mod_cast hi'
              have hn1 : ((n : Int) + 1) ≤ N := by
                have : ((n + 1 : Nat) : Int) ≤ N := hcount
                push_cast at this
                omega
              omega
          rw [Int.emod_eq_of_lt h0 hlt] at hne
          exact hne
        rw [receiveGo_untouched cc hop N data hN n (j + 1) _ _ c cur h0' hlt' hmiss]
        simp [hc]
      · obtain ⟨i', rfl⟩ : ∃ i', i = i' + 1 := ⟨i - 1, by omega⟩
        have hkey : ((cur + 1) % N + (i' : Int)) % N = (cur + ((i' : Nat) + 1 : Nat)) % N := by
          rw [emod_add_left_emod]
          push_cast
          ring_nf
        have hcount' : (n : Int) ≤ N := by
          have : ((n + 1 : Nat) : Int) ≤ N := hcount
          push_cast at this
          omega
        have := ih (j + 1) ((cur + 1) % N)
          (fun c2 b => if c2 < cc ∧ b = cur then
              setArray (buf c2 b) (((data.getD c2 []).drop (j * hop)).take hop)
            else buf c2 b)
          c i' h0' hlt' hc (by omega) hcount'
        rw [hkey] at this
        rw [this]
        have hbne : (cur + ((i' : Nat) + 1 : Nat)) % N ≠ cur := by
          have hne : (cur + ((i' : Int) + 1)) % N ≠ cur % N := by
            apply emod_add_ne
            · omega
            · have : (i' : Int) + 1 + 1 ≤ N := by
                have h1 : ((n + 1 : Nat) : Int) ≤ N := hcount
                have h2 : (i' : Int) + 1 < ((n + 1 : Nat) : Int) := by exact_mod_cast hi
                omega
              omega
          rw [Int.emod_eq_of_lt h0 hlt] at hne
          have hcast : (cur + ((i' : Nat) + 1 : Nat)) = cur + ((i' : Int) + 1) := by
            push_cast; ring
          rw [hcast]
          exact hne
        have hjadd : j + 1 + i' = j + (i' + 1) := by omega
        have hbne2 : ¬ (c < cc ∧ (cur + ((i' : Int) + 1)) % N = cur) := by
          intro hcontra
          apply hbne
          push_cast
          exact hcontra.2
        simp [hjadd, hbne2]

/-- Rounding a cast natural stays put. -/
theorem jsRound_natCast (m : Nat) : jsRound ((m : Nat) : ℚ) = (m : Int) := by
  rw [jsRound]
  have h1 : ((m : Nat) : ℚ) + 1 / 2 = ((m : Int) : ℚ) + 1 / 2 := by push_cast; ring
  have h2 : ⌊(1 / 2 : ℚ)⌋ = 0 := by
    rw [Int.floor_eq_iff]
    norm_num
  rw [h1, Int.floor_int_add, h2, add_zero]

/-- On a well-shaped delivery (channel count matches, every channel holding
exactly `m` hops), `receive` runs the write loop over `m` hops and reports no
error. -/
theorem receive_eq (cb : CircularBuffer) (data : List (List Sample)) (m : Nat)
    (hhop : 0 < cb.hopSize) (hcc : 0 < cb.channelCount)
    (hlen : data.length = cb.channelCount)
    (hch : ∀ ch ∈ data, ch.length = m * cb.hopSize) :
    cb.receive data =
      ({ cb with
          buffer := (CircularBuffer.receiveGo cb.channelCount cb.hopSize
            (cb.bucketsCount : Int) data 0 m cb.bucketWritePointer cb.buffer).1
          bucketWritePointer := (CircularBuffer.receiveGo cb.channelCount cb.hopSize
            (cb.bucketsCount : Int) data 0 m cb.bucketWritePointer cb.buffer).2 },
        false) := by
  have hne : data ≠ [] := by
    intro h
    rw [h] at hlen
    simp at hlen
    omega
  obtain ⟨a, t, rfl⟩ := List.exists_cons_of_ne_nil hne
  have hhead : ((a :: t).headD []).length = m * cb.hopSize := by
    simp only [List.headD_cons]
    exact hch a (List.mem_cons_self a t)
  have hhopQ : (cb.hopSize : ℚ) ≠ 0 := Nat.cast_ne_zero.mpr (by omega)
  have hq : (((a :: t).headD []).length : ℚ) / (cb.hopSize : ℚ) = ((m : Nat) : ℚ) := by
    rw [hhead]
    push_cast
    field_simp
  have hfc : ((a :: t).headD []).length / cb.hopSize = m := by
    rw [hhead]
    exact Nat.mul_div_cancel _ hhop
  rw [CircularBuffer.receive, if_neg (by simp [hlen]),
    if_neg (by rw [not_ne_iff, hq, jsRound_natCast]; push_cast; ring), hfc]

/-! Gate lemmas. -/

/-- Unrolling the iteration from the right. -/
theorem unlockIter_succ_right (n : Nat) (l : Lock) :
    unlockIter (n + 1) l = (unlockIter n l).attemptUnlock := by
  induction n generalizing l with
  | zero => rfl
  | succ k ih =>
      rw [unlockIter, ih l.attemptUnlock]
      rfl

/-- While fewer turns than the threshold have elapsed, the gate stays locked
and counts up one per release. -/
theorem unlockIter_locked (N : Int) :
    ∀ (k : Nat) (t : Int), 0 ≤ t → t + k < N →
      unlockIter k ⟨true, N, t⟩ = ⟨true, N, t + k⟩ := by
  intro k
  induction k with
  | zero =>
      intro t ht hlt
      rw [unlockIter]
      simp
  | succ n ih =>
      intro t ht hlt
      have hcond : ¬ (t + 1 ≥ N) := by omega
      have hstep : (⟨true, N, t⟩ : Lock).attemptUnlock = ⟨true, N, t + 1⟩ := by
        rw [Lock.attemptUnlock]
        rw [if_neg (show ¬ ((⟨true, N, t⟩ : Lock)._lock = false) by simp)]
        rw [if_neg hcond]
      rw [unlockIter, hstep, ih (t + 1) (by omega) (by omega)]
      have : t + 1 + (n : Int) = t + ((n : Nat) + 1 : Nat) := by push_cast; ring
      rw [this]

/-- Claim C5: for every positive threshold N, a Gate is armed immediately
after `arm()` with its counter reset to zero, remains armed through the first
N−1 `release()` calls, disarms exactly on the Nth `release()`, and a
`release()` while disarmed is a no-op that leaves the whole gate state (and
hence the count needed by a later arm/release cycle) unchanged. -/
theorem gate_threshold_behavior (l : Lock) (N : Int) (hN : 0 < N)
    (hT : l._turnCount = N) :
    ((l.lock).isLocked = true ∧ (l.lock)._turn = 0)
    ∧ (∀ k : Nat, (k : Int) < N → (unlockIter k l.lock).isLocked = true)
    ∧ (∀ k : Nat, (k : Int) = N →
        (unlockIter k l.lock).isLocked = false ∧ (unlockIter k l.lock)._turn = 0)
    ∧ (∀ l2 : Lock, l2.isLocked = false → l2.attemptUnlock = l2) := by
  obtain ⟨lb, lc, lt⟩ := l
  simp only at hT
  subst hT
  have hlock : (⟨lb, lc, lt⟩ : Lock).lock = ⟨true, lc, 0⟩ := rfl
  refine ⟨⟨rfl, rfl⟩, ?_, ?_, ?_⟩
  · intro k hk
    rw [hlock, unlockIter_locked lc k 0 le_rfl (by omega)]
    rfl
  · intro k hk
    have hk1 : 1 ≤ k := by omega
    obtain ⟨k2, rfl⟩ : ∃ k2, k = k2 + 1 := ⟨k - 1, by omega⟩
    rw [hlock, unlockIter_succ_right,
      unlockIter_locked lc k2 0 le_rfl (by push_cast at hk ⊢; omega)]
    have hge : (0 : Int) + (k2 : Int) + 1 ≥ lc := by push_cast at hk; omega
    rw [Lock.attemptUnlock,
      if_neg (show ¬ ((⟨true, lc, 0 + (k2 : Int)⟩ : Lock)._lock = false) by simp),
      if_pos (show (⟨true, lc, 0 + (k2 : Int)⟩ : Lock)._turn + 1 ≥ lc by
        simp only
        omega)]
    exact ⟨rfl, rfl⟩
  · intro l2 h2
    obtain ⟨b2, c2, t2⟩ := l2
    rw [Lock.isLocked] at h2
    simp only at h2
    rw [Lock.attemptUnlock, if_pos (by simp [h2])]

/-- Witness for C5 at threshold 2: one release keeps the gate armed, the
second disarms it. -/
theorem gate_threshold_behavior_witness :
    (unlockIter 1 ((⟨false, 2, 7⟩ : Lock).lock)).isLocked = true
    ∧ (unlockIter 2 ((⟨false, 2, 7⟩ : Lock).lock)).isLocked = false :=
  ⟨(gate_threshold_behavior ⟨false, 2, 7⟩ 2 (by decide) rfl).2.1 1 (by decide),
    ((gate_threshold_behavior ⟨false, 2, 7⟩ 2 (by decide) rfl).2.2.1 2 (by decide)).1⟩

/-- Claim C10: the Gate constructor fails exactly on threshold zero; a
negative threshold constructs successfully, and after `arm()` a single
`release()` already disarms the gate because the counter reaches the
(negative) threshold at once. -/
theorem gate_negative_threshold (N : Int) (hN : N < 0) :
    (∀ M : Int, Lock.make M = none ↔ M = 0)
    ∧ (Lock.make N).isSome = true
    ∧ (∀ l : Lock, Lock.make N = some l →
        ((l.lock).attemptUnlock).isLocked = false) := by
  refine ⟨?_, ?_, ?_⟩
  · intro M
    rw [Lock.make]
    split
    · simpa
    · simpa
  · rw [Lock.make, if_neg (by omega)]
    rfl
  · intro l hl
    rw [Lock.make, if_neg (by omega)] at hl
    have hl2 : l = ⟨false, N, 0⟩ := by injection hl with h; exact h.symm
    subst hl2
    have hlock : (⟨false, N, 0⟩ : Lock).lock = ⟨true, N, 0⟩ := rfl
    rw [hlock, Lock.attemptUnlock,
      if_neg (show ¬ ((⟨true, N, 0⟩ : Lock)._lock = false) by simp),
      if_pos (show (⟨true, N, 0⟩ : Lock)._turn + 1 ≥ N by simp only; omega)]
    rfl

/-- Witness for C10 at threshold −3. -/
theorem gate_negative_threshold_witness :
    (Lock.make (-3)).isSome = true
    ∧ (((⟨false, -3, 0⟩ : Lock).lock).attemptUnlock).isLocked = false :=
  ⟨(gate_negative_threshold (-3) (by decide)).2.1,
    (gate_negative_threshold (-3) (by decide)).2.2 ⟨false, -3, 0⟩ (by decide)⟩

/-- Claim C7: a chunk delivery whose index differs from the pending-request
index is discarded entirely: the worklet state (ring buffer contents, write
pointer, gate, pending marker) is unchanged and nothing is posted. -/
theorem mismatched_chunk_discarded (w : PlaybackWorklet) (idx p : Int)
    (chunks : List (List (List Sample)))
    (hpend : w._pendingChunk = some p) (hne : p ≠ idx) :
    w._handleMessage (.responseNextChunk idx chunks) = (w, []) := by
  simp [PlaybackWorklet._handleMessage, hpend, hne]

/-- Witness for C7: pending chunk 0, delivery index 2. -/
theorem mismatched_chunk_discarded_witness :
    PlaybackWorklet.initState._handleMessage (.responseNextChunk 2 []) =
      (PlaybackWorklet.initState, []) :=
  mismatched_chunk_discarded PlaybackWorklet.initState 2 0 [] rfl (by decide)

/-- Claim C6: on a render tick in the playing state (not paused, not closed,
gate disarmed) with `currentSecond >= duration`, the engine pauses itself and
emits exactly one `signal:end` with no output, and every further tick on a
paused state emits no message at all, produces no output and leaves the
state unchanged. -/
theorem end_signal_once (w : PlaybackWorklet)
    (hp : w._isPaused = false) (hc : w._isClosed = false)
    (hl : w._seekLock.isLocked = false) (hend : w._hasReachedEnd = true) :
    w.process = ({ w with _isPaused := true }, [.signalEnd], none)
    ∧ (∀ w2 : PlaybackWorklet, w2._isPaused = true →
        ∀ n : Nat, processIter w2 n = (w2, [])) := by
  constructor
  · rw [PlaybackWorklet.process, if_neg (by simp [hp, hc, hl]), if_pos hend]
  · intro w2 hw2 n
    have hstep : w2.process = (w2, [], none) := by
      rw [PlaybackWorklet.process, if_pos (Or.inl hw2)]
    induction n with
    | zero => rfl
    | succ k ih =>
        rw [processIter, hstep, ih]
        rfl

/-- Witness for C6: prepare with duration 0 and play; the first tick ends the
stream, three further ticks stay silent. -/
theorem end_signal_once_witness :
    (((PlaybackWorklet.initState._handleMessage (.requestPrepare 0)).1._handleMessage
        .requestPlay).1).process =
      ({ ((PlaybackWorklet.initState._handleMessage (.requestPrepare 0)).1._handleMessage
          .requestPlay).1 with _isPaused := true }, [.signalEnd], none)
    ∧ processIter
        { ((PlaybackWorklet.initState._handleMessage (.requestPrepare 0)).1._handleMessage
            .requestPlay).1 with _isPaused := true } 3 =
      ({ ((PlaybackWorklet.initState._handleMessage (.requestPrepare 0)).1._handleMessage
          .requestPlay).1 with _isPaused := true }, []) :=
  ⟨(end_signal_once
        (((PlaybackWorklet.initState._handleMessage (.requestPrepare 0)).1._handleMessage
          .requestPlay).1) rfl rfl rfl rfl).1,
    (end_signal_once
        (((PlaybackWorklet.initState._handleMessage (.requestPrepare 0)).1._handleMessage
          .requestPlay).1) rfl rfl rfl rfl).2 _ rfl 3⟩

/-- Claim C3: for every hop position h and every write-pointer state,
`readAboutToOvertakeWrite(h)` is true iff
`(writePointerBucket − readBucket + bucketsCount) mod bucketsCount` is
strictly below the configured low-water-mark distance, where the read bucket
is `h mod bucketsCount`; at circular distance exactly the low-water-mark it
is false. -/
theorem readAboutToOvertakeWrite_iff_claim (cb : CircularBuffer) (h : Nat) :
    (cb.readAboutToOvertakeWrite ((h : Nat) : ℚ) = true ↔
      (cb.bucketWritePointer - ((h % cb.bucketsCount : Nat) : Int) +
          (cb.bucketsCount : Int)) % (cb.bucketsCount : Int) <
        (READ_WRITE_POINTER_DISTANCE : Int))
    ∧ ((cb.bucketWritePointer - ((h % cb.bucketsCount : Nat) : Int) +
          (cb.bucketsCount : Int)) % (cb.bucketsCount : Int) =
        (READ_WRITE_POINTER_DISTANCE : Int) →
      cb.readAboutToOvertakeWrite ((h : Nat) : ℚ) = false) := by
  have hpos := hopToPositionPointer_natCast cb h
  constructor
  · rw [CircularBuffer.readAboutToOvertakeWrite, hpos]
    simp
  · intro hEq
    rw [CircularBuffer.readAboutToOvertakeWrite, hpos, hEq]
    simp

/-- Witness for C3: write pointer 1000, read bucket 0, bucket count 2000: the
circular distance is exactly the low-water-mark 1000, and the predicate is
false. -/
theorem readAboutToOvertakeWrite_iff_claim_witness :
    ({ CircularBuffer.make CHUNK_SIZE CIRCULAR_BUFFER_SIZE_IN_CHUNKS CHANNEL_COUNT
        WEB_AUDIO_BLOCK_SIZE with bucketWritePointer := 1000 }).readAboutToOvertakeWrite
      ((0 : Nat) : ℚ) = false :=
  (readAboutToOvertakeWrite_iff_claim
    { CircularBuffer.make CHUNK_SIZE CIRCULAR_BUFFER_SIZE_IN_CHUNKS CHANNEL_COUNT
        WEB_AUDIO_BLOCK_SIZE with bucketWritePointer := 1000 } 0).2 (by decide)

/-- Counterexample to claim C1 as stated: seeking to 5.0 s with the shipped
configuration (chunkSize 200, hop 128, sample rate 44100) leaves the pending
marker at `floor(currentHop/chunkSize) = 8`, not at the claimed target chunk
`floor(currentHop/chunkSize) − 1 = 7`. -/
theorem seek_pending_counterexample :
    (PlaybackWorklet.initState._handleMessage (.requestSeek 5)).1._pendingChunk ≠
      some (⌊utils.secondToFrame 5 SAMPLE_RATE WEB_AUDIO_BLOCK_SIZE / (CHUNK_SIZE : ℚ)⌋ - 1)
    ∧ (PlaybackWorklet.initState._handleMessage (.requestSeek 5)).1._pendingChunk = some 8
    ∧ ⌊utils.secondToFrame 5 SAMPLE_RATE WEB_AUDIO_BLOCK_SIZE / (CHUNK_SIZE : ℚ)⌋ - 1 = 7 := by
  have hfloor : ⌊utils.secondToFrame 5 SAMPLE_RATE WEB_AUDIO_BLOCK_SIZE / (CHUNK_SIZE : ℚ)⌋
      = 8 := by
    rw [utils.secondToFrame, Int.floor_eq_iff]
    simp [SAMPLE_RATE, WEB_AUDIO_BLOCK_SIZE, CHUNK_SIZE]
    norm_num
  have hpend : (PlaybackWorklet.initState._handleMessage (.requestSeek 5)).1._pendingChunk
      = some 8 := by
    simp [PlaybackWorklet._handleMessage, PlaybackWorklet._maybeRequestMore, hfloor]
  refine ⟨?_, hpend, by rw [hfloor]; decide⟩
  rw [hpend, hfloor]
  decide

/-- Claim C1 (amended): on every `seek(seconds)` the engine recomputes the
current hop from the seconds, stores `floor(currentHop/chunkSize) − 1` as the
current chunk, sets the pending-request marker to the following chunk
`floor(currentHop/chunkSize)`, and unconditionally (even with no prior
outstanding request) emits a position report followed by a forced
`request:nextChunk` carrying the pending index. -/
theorem seek_sets_pending_and_requests (w : PlaybackWorklet) (seconds : ℚ) :
    (w._handleMessage (.requestSeek seconds)).1._currentFrame
        = utils.secondToFrame seconds SAMPLE_RATE WEB_AUDIO_BLOCK_SIZE
    ∧ (w._handleMessage (.requestSeek seconds)).1._currentChunk
        = ⌊utils.secondToFrame seconds SAMPLE_RATE WEB_AUDIO_BLOCK_SIZE / (CHUNK_SIZE : ℚ)⌋ - 1
    ∧ (w._handleMessage (.requestSeek seconds)).1._pendingChunk
        = some ⌊utils.secondToFrame seconds SAMPLE_RATE WEB_AUDIO_BLOCK_SIZE / (CHUNK_SIZE : ℚ)⌋
    ∧ (w._handleMessage (.requestSeek seconds)).2
        = [.positionReport seconds,
            .requestNextChunk
              ⌊utils.secondToFrame seconds SAMPLE_RATE WEB_AUDIO_BLOCK_SIZE / (CHUNK_SIZE : ℚ)⌋] := by
  refine ⟨?_, ?_, ?_, ?_⟩ <;>
    simp [PlaybackWorklet._handleMessage, PlaybackWorklet._maybeRequestMore, sub_add_cancel]

/-- A quotient of naturals that is not exact is moved by rounding. -/
theorem jsRound_ne_of_not_dvd (L hop : Nat) (hhop : 0 < hop) (hnd : ¬ hop ∣ L) :
    (jsRound ((L : ℚ) / (hop : ℚ)) : ℚ) ≠ (L : ℚ) / (hop : ℚ) := by
  intro hEq
  have hhopQ : (0 : ℚ) < (hop : ℚ) := by positivity
  have hL : (L : ℚ) = (jsRound ((L : ℚ) / (hop : ℚ)) : ℚ) * (hop : ℚ) := by
    rw [hEq]
    field_simp
  have hk0 : 0 ≤ jsRound ((L : ℚ) / (hop : ℚ)) := by
    by_contra hneg
    push_neg at hneg
    have hq : ((jsRound ((L : ℚ) / (hop : ℚ)) : Int) : ℚ) < 0 := by exact_mod_cast hneg
    have h1 : (jsRound ((L : ℚ) / (hop : ℚ)) : ℚ) * (hop : ℚ) < 0 :=
      mul_neg_of_neg_of_pos hq hhopQ
    rw [← hL] at h1
    have h2 : (0 : ℚ) ≤ (L : ℚ) := by positivity
    linarith
  obtain ⟨m, hm⟩ : ∃ m : Nat, jsRound ((L : ℚ) / (hop : ℚ)) = (m : Int) :=
    ⟨(jsRound ((L : ℚ) / (hop : ℚ))).toNat, (Int.toNat_of_nonneg hk0).symm⟩
  rw [hm] at hL
  have hLm : L = m * hop := by exact_mod_cast hL
  exact hnd ⟨m, by rw [hLm, Nat.mul_comm]⟩

/-- Claim C8: `receive` rejects a delivery whose channel count differs from
the configuration, and a delivery whose (uniform) per-channel sample length
is not an exact multiple of the hop size; in both cases it reports the error
and leaves the entire buffer state (pointer included) unchanged. -/
theorem receive_rejects_bad_shape (cb : CircularBuffer) (data : List (List Sample)) :
    (data.length ≠ cb.channelCount → cb.receive data = (cb, true))
    ∧ (∀ L : Nat, data.length = cb.channelCount → 0 < cb.channelCount →
        0 < cb.hopSize → (∀ ch ∈ data, ch.length = L) → ¬ (cb.hopSize ∣ L) →
        cb.receive data = (cb, true)) := by
  constructor
  · intro hne
    rw [CircularBuffer.receive, if_pos hne]
  · intro L hlen hcc hhop hch hnd
    have hne : data ≠ [] := by
      intro hnil
      rw [hnil] at hlen
      simp at hlen
      omega
    obtain ⟨a, t, rfl⟩ := List.exists_cons_of_ne_nil hne
    have hhead : ((a :: t).headD []).length = L := by
      simp only [List.headD_cons]
      exact hch a (List.mem_cons_self a t)
    rw [CircularBuffer.receive, if_neg (by simp [hlen]), hhead,
      if_pos (jsRound_ne_of_not_dvd L cb.hopSize hhop hnd)]

/-- Witness for C8: a one-channel delivery into a two-channel buffer, and a
two-channel delivery of 3 samples with hop size 2. -/
theorem receive_rejects_bad_shape_witness :
    (CircularBuffer.make 2 2 2 2).receive [[1, 2, 3]] = (CircularBuffer.make 2 2 2 2, true)
    ∧ (CircularBuffer.make 2 2 2 2).receive [[1, 2, 3], [4, 5, 6]] =
        (CircularBuffer.make 2 2 2 2, true) :=
  ⟨(receive_rejects_bad_shape (CircularBuffer.make 2 2 2 2) [[1, 2, 3]]).1 (by decide),
    (receive_rejects_bad_shape (CircularBuffer.make 2 2 2 2) [[1, 2, 3], [4, 5, 6]]).2 3
      (by decide) (by decide) (by decide) (by decide) (by decide)⟩

/-- The hop slice written by step `j` has full hop length whenever the
channel holds at least `j + 1` hops. -/
theorem hop_slice_length (l : List Sample) (hop j m : Nat) (hl : l.length = m * hop)
    (hj : j < m) : ((l.drop (j * hop)).take hop).length = hop := by
  rw [List.length_take, List.length_drop, hl]
  have h2 : (j + 1) * hop ≤ m * hop := Nat.mul_le_mul_right hop (by omega)
  rw [Nat.succ_mul] at h2
  omega

/-- Overwriting a full-length bucket with a full-length slice replaces it. -/
theorem setArray_full (target source : List Sample) (hop : Nat)
    (ht : target.length = hop) (hs : source.length = hop) :
    setArray target source = source := by
  rw [setArray, hs, ← ht, List.drop_length, List.append_nil]

/-- Claim C9: `receive` accepts any delivery whose per-channel length is an
integral number `m` of hops (not only a full chunk), reports no error,
advances the write pointer by exactly `m` buckets modulo `bucketsCount`, and
(for `m` within the buffer capacity) writes hop `j` of the delivery into
bucket `(writePointer + j) mod bucketsCount` for every channel. -/
theorem receive_accepts_hop_multiples (cb : CircularBuffer) (data : List (List Sample))
    (m : Nat)
    (hhop : 0 < cb.hopSize) (hcc : 0 < cb.channelCount)
    (hlen : data.length = cb.channelCount)
    (hch : ∀ ch ∈ data, ch.length = m * cb.hopSize)
    (hw0 : 0 ≤ cb.bucketWritePointer)
    (hwN : cb.bucketWritePointer < (cb.bucketsCount : Int))
    (hbuckets : ∀ c, c < cb.channelCount → ∀ b : Int, 0 ≤ b → b < (cb.bucketsCount : Int) →
      (cb.buffer c b).length = cb.hopSize) :
    (cb.receive data).2 = false
    ∧ ((cb.receive data).1).bucketWritePointer
        = (cb.bucketWritePointer + (m : Int)) % (cb.bucketsCount : Int)
    ∧ ((m : Int) ≤ (cb.bucketsCount : Int) →
        ∀ c : Nat, c < cb.channelCount → ∀ j : Nat, j < m →
          ((cb.receive data).1).buffer c
              ((cb.bucketWritePointer + (j : Int)) % (cb.bucketsCount : Int))
            = ((data.getD c []).drop (j * cb.hopSize)).take cb.hopSize) := by
  have hN : (0 : Int) < (cb.bucketsCount : Int) := by omega
  rw [receive_eq cb data m hhop hcc hlen hch]
  refine ⟨rfl, ?_, ?_⟩
  · exact receiveGo_writePointer cb.channelCount cb.hopSize (cb.bucketsCount : Int) data hN
      m 0 cb.bucketWritePointer cb.buffer hw0 hwN
  · intro hmN c hc j hj
    have hwrite := receiveGo_written cb.channelCount cb.hopSize (cb.bucketsCount : Int) data
      hN m 0 cb.bucketWritePointer cb.buffer c j hw0 hwN hc hj hmN
    simp only [Nat.zero_add] at hwrite
    dsimp only
    rw [hwrite]
    have hbpos : (cb.bucketWritePointer + (j : Int)) % (cb.bucketsCount : Int) ∈
        Set.Ico (0 : Int) (cb.bucketsCount : Int) :=
      ⟨Int.emod_nonneg _ (by omega), Int.emod_lt_of_pos _ hN⟩
    have hgetD : (data.getD c []).length = m * cb.hopSize := by
      rw [List.getD_eq_getElem data [] (by omega)]
      exact hch _ (List.getElem_mem _)
    exact setArray_full _ _ cb.hopSize
      (hbuckets c hc _ hbpos.1 hbpos.2)
      (hop_slice_length _ cb.hopSize j m hgetD hj)

/-- Witness for C9: a 3-hop delivery (hop size 2, chunk size 2, capacity 4
buckets) is accepted in full; the pointer lands on bucket 3 and hop 2 is
readable at bucket 2. -/
theorem receive_accepts_hop_multiples_witness :
    ((CircularBuffer.make 2 2 1 2).receive [[1, 2, 3, 4, 5, 6]]).2 = false
    ∧ (((CircularBuffer.make 2 2 1 2).receive [[1, 2, 3, 4, 5, 6]]).1).bucketWritePointer
        = ((CircularBuffer.make 2 2 1 2).bucketWritePointer + ((3 : Nat) : Int))
            % ((CircularBuffer.make 2 2 1 2).bucketsCount : Int)
    ∧ (((CircularBuffer.make 2 2 1 2).receive [[1, 2, 3, 4, 5, 6]]).1).buffer 0
          (((CircularBuffer.make 2 2 1 2).bucketWritePointer + ((2 : Nat) : Int))
            % ((CircularBuffer.make 2 2 1 2).bucketsCount : Int))
        = (([[1, 2, 3, 4, 5, 6]].getD 0 []).drop (2 * (CircularBuffer.make 2 2 1 2).hopSize)).take
            (CircularBuffer.make 2 2 1 2).hopSize :=
  ⟨(receive_accepts_hop_multiples (CircularBuffer.make 2 2 1 2) [[1, 2, 3, 4, 5, 6]] 3
      (by decide) (by decide) (by decide) (by decide) (by decide) (by decide)
      (by
        intro c hc b hb0 hbN
        simp only [CircularBuffer.make, CircularBuffer.bucketsCount] at hbN ⊢
        rw [if_pos ⟨hc, hb0, hbN⟩]
        simp)).1,
    (receive_accepts_hop_multiples (CircularBuffer.make 2 2 1 2) [[1, 2, 3, 4, 5, 6]] 3
      (by decide) (by decide) (by decide) (by decide) (by decide) (by decide)
      (by
        intro c hc b hb0 hbN
        simp only [CircularBuffer.make, CircularBuffer.bucketsCount] at hbN ⊢
        rw [if_pos ⟨hc, hb0, hbN⟩]
        simp)).2.1,
    (receive_accepts_hop_multiples (CircularBuffer.make 2 2 1 2) [[1, 2, 3, 4, 5, 6]] 3
      (by decide) (by decide) (by decide) (by decide) (by decide) (by decide)
      (by
        intro c hc b hb0 hbN
        simp only [CircularBuffer.make, CircularBuffer.bucketsCount] at hbN ⊢
        rw [if_pos ⟨hc, hb0, hbN⟩]
        simp)).2.2 (by decide) 0 (by decide) 2 (by decide)⟩

@[simp] theorem setWritePointer_chunkSize (cb : CircularBuffer) (q : ℚ) :
    (cb.setWritePointer q).chunkSize = cb.chunkSize := rfl

@[simp] theorem setWritePointer_depth (cb : CircularBuffer) (q : ℚ) :
    (cb.setWritePointer q).circularBufferSizeInChunks = cb.circularBufferSizeInChunks := rfl

@[simp] theorem setWritePointer_channelCount (cb : CircularBuffer) (q : ℚ) :
    (cb.setWritePointer q).channelCount = cb.channelCount := rfl

@[simp] theorem setWritePointer_hopSize (cb : CircularBuffer) (q : ℚ) :
    (cb.setWritePointer q).hopSize = cb.hopSize := rfl

@[simp] theorem setWritePointer_buffer (cb : CircularBuffer) (q : ℚ) :
    (cb.setWritePointer q).buffer = cb.buffer := rfl

@[simp] theorem setWritePointer_bucketsCount (cb : CircularBuffer) (q : ℚ) :
    (cb.setWritePointer q).bucketsCount = cb.bucketsCount := rfl

@[simp] theorem bucketsCount_update (cb : CircularBuffer) (B : Nat → Int → List Sample)
    (p : Int) :
    ({ cb with buffer := B, bucketWritePointer := p } : CircularBuffer).bucketsCount
      = cb.bucketsCount := rfl

/-- `setWritePointer` at a natural hop position computes the chunk-aligned
bucket. -/
theorem setWritePointer_natCast (cb : CircularBuffer) (h : Nat) :
    (cb.setWritePointer ((h : Nat) : ℚ)).bucketWritePointer
      = ((h / cb.chunkSize * cb.chunkSize : Nat) : Int) % (cb.bucketsCount : Int) := by
  rw [CircularBuffer.setWritePointer]
  dsimp only
  have hcast : ((h : Nat) : ℚ) = (((h : Int) : Int) : ℚ) := by push_cast; ring
  rw [hcast, Rat.floor_intCast_div_natCast]
  have h0 : 0 ≤ (h : Int) / (cb.chunkSize : Int) * (cb.chunkSize : Int) :=
    mul_nonneg (Int.ediv_nonneg (by positivity) (by positivity)) (by positivity)
  rw [hopToPositionPointer_intCast cb _ h0]
  congr 1

/-- Claim C4: `setWritePointer(h)` sets the write pointer to bucket
`(floor(h/chunkSize) * chunkSize) mod bucketsCount`; a well-shaped chunk
received immediately afterwards has its first hop written exactly at that
bucket; and when h is not chunk-aligned that starting bucket is never h's
own bucket. -/
theorem setWritePointer_aligns (cb : CircularBuffer) (h : Nat)
    (hchunk : 0 < cb.chunkSize) (hdepth : 0 < cb.circularBufferSizeInChunks) :
    (cb.setWritePointer ((h : Nat) : ℚ)).bucketWritePointer
        = ((h / cb.chunkSize * cb.chunkSize : Nat) : Int) % (cb.bucketsCount : Int)
    ∧ (∀ data : List (List Sample), 0 < cb.hopSize → 0 < cb.channelCount →
        data.length = cb.channelCount →
        (∀ ch ∈ data, ch.length = cb.chunkSize * cb.hopSize) →
        (∀ c, c < cb.channelCount → ∀ b : Int, 0 ≤ b → b < (cb.bucketsCount : Int) →
          (cb.buffer c b).length = cb.hopSize) →
        ∀ c : Nat, c < cb.channelCount →
          (((cb.setWritePointer ((h : Nat) : ℚ)).receive data).1).buffer c
              ((cb.setWritePointer ((h : Nat) : ℚ)).bucketWritePointer)
            = (data.getD c []).take cb.hopSize)
    ∧ (¬ cb.chunkSize ∣ h →
        (cb.setWritePointer ((h : Nat) : ℚ)).bucketWritePointer
          ≠ (h : Int) % (cb.bucketsCount : Int)) := by
  have hw := setWritePointer_natCast cb h
  have hNpos : 0 < cb.bucketsCount := Nat.mul_pos hchunk hdepth
  have hN : (0 : Int) < (cb.bucketsCount : Int) := by exact_mod_cast hNpos
  have hw0 : 0 ≤ (cb.setWritePointer ((h : Nat) : ℚ)).bucketWritePointer := by
    rw [hw]
    exact Int.emod_nonneg _ (by omega)
  have hwN : (cb.setWritePointer ((h : Nat) : ℚ)).bucketWritePointer < (cb.bucketsCount : Int) := by
    rw [hw]
    exact Int.emod_lt_of_pos _ hN
  refine ⟨hw, ?_, ?_⟩
  · intro data hhop hcc hlen hch hbuckets c hc
    rw [receive_eq (cb.setWritePointer ((h : Nat) : ℚ)) data cb.chunkSize hhop hcc hlen hch]
    have hwrite := receiveGo_written cb.channelCount cb.hopSize (cb.bucketsCount : Int) data
      hN cb.chunkSize 0 ((cb.setWritePointer ((h : Nat) : ℚ)).bucketWritePointer) cb.buffer
      c 0 hw0 hwN hc hchunk
      (by
        have : cb.chunkSize ≤ cb.bucketsCount := Nat.le_mul_of_pos_right _ hdepth
        exact_mod_cast this)
    simp only [Nat.cast_zero, add_zero, Nat.add_zero, Nat.zero_mul, List.drop_zero] at hwrite
    rw [Int.emod_eq_of_lt hw0 hwN] at hwrite
    simp only [setWritePointer_channelCount, setWritePointer_hopSize,
      setWritePointer_bucketsCount, setWritePointer_buffer]
    rw [hwrite]
    have hbpos : 0 ≤ (cb.setWritePointer ((h : Nat) : ℚ)).bucketWritePointer := hw0
    have hgetD : (data.getD c []).length = cb.chunkSize * cb.hopSize := by
      rw [List.getD_eq_getElem data [] (by omega)]
      exact hch _ (List.getElem_mem _)
    apply setArray_full _ _ cb.hopSize (hbuckets c hc _ hw0 hwN)
    rw [List.length_take, hgetD]
    have : 1 * cb.hopSize ≤ cb.chunkSize * cb.hopSize :=
      Nat.mul_le_mul_right cb.hopSize hchunk
    omega
  · intro hnd hcontra
    rw [hw] at hcontra
    have hsplit : h = h / cb.chunkSize * cb.chunkSize + h % cb.chunkSize := by
      rw [Nat.mul_comm]
      exact (Nat.div_add_mod h cb.chunkSize).symm
    have hmod0 : h % cb.chunkSize ≠ 0 := fun h0 => hnd (Nat.dvd_of_mod_eq_zero h0)
    have hmodlt : h % cb.chunkSize < cb.bucketsCount :=
      lt_of_lt_of_le (Nat.mod_lt h hchunk) (Nat.le_mul_of_pos_right _ hdepth)
    have hkey : ((h / cb.chunkSize * cb.chunkSize : Nat) : Int) % (cb.bucketsCount : Int)
        = (((h / cb.chunkSize * cb.chunkSize : Nat) : Int) + ((h % cb.chunkSize : Nat) : Int))
            % (cb.bucketsCount : Int) → False := by
      intro hEq
      exact emod_add_ne ((h / cb.chunkSize * cb.chunkSize : Nat) : Int)
        ((h % cb.chunkSize : Nat) : Int) (cb.bucketsCount : Int)
        (by omega) (by exact_mod_cast hmodlt) hEq.symm
    apply hkey
    have hsum : ((h / cb.chunkSize * cb.chunkSize : Nat) : Int)
        + ((h % cb.chunkSize : Nat) : Int) = (h : Int) := by exact_mod_cast hsplit.symm
    rw [hsum]
    exact hcontra

/-- Witness for C4 at h = 5 with chunk size 2 and 4 buckets: the pointer
aligns to bucket 4 mod 4 = 0, the first received hop lands there, and bucket
0 differs from h's own bucket 1. -/
theorem setWritePointer_aligns_witness :
    ((CircularBuffer.make 2 2 1 2).setWritePointer ((5 : Nat) : ℚ)).bucketWritePointer
        = ((5 / (CircularBuffer.make 2 2 1 2).chunkSize * (CircularBuffer.make 2 2 1 2).chunkSize
            : Nat) : Int) % ((CircularBuffer.make 2 2 1 2).bucketsCount : Int)
    ∧ ((((CircularBuffer.make 2 2 1 2).setWritePointer ((5 : Nat) : ℚ)).receive
          [[10, 20, 30, 40]]).1).buffer 0
          (((CircularBuffer.make 2 2 1 2).setWritePointer ((5 : Nat) : ℚ)).bucketWritePointer)
        = ([[10, 20, 30, 40]].getD 0 []).take (CircularBuffer.make 2 2 1 2).hopSize
    ∧ ((CircularBuffer.make 2 2 1 2).setWritePointer ((5 : Nat) : ℚ)).bucketWritePointer
        ≠ ((5 : Nat) : Int) % ((CircularBuffer.make 2 2 1 2).bucketsCount : Int) :=
  ⟨(setWritePointer_aligns (CircularBuffer.make 2 2 1 2) 5 (by decide) (by decide)).1,
    (setWritePointer_aligns (CircularBuffer.make 2 2 1 2) 5 (by decide) (by decide)).2.1
      [[10, 20, 30, 40]] (by decide) (by decide) (by decide) (by decide)
      (by
        intro c hc b hb0 hbN
        simp only [CircularBuffer.make, CircularBuffer.bucketsCount] at hbN ⊢
        rw [if_pos ⟨hc, hb0, hbN⟩]
        simp)
      0 (by decide),
    (setWritePointer_aligns (CircularBuffer.make 2 2 1 2) 5 (by decide) (by decide)).2.2
      (by decide)⟩

/-- Claim C2: after aligning the write pointer to the chunk containing hop h
and receiving that chunk, `peek(h)` returns on every channel exactly the hop
block placed at h (the slice at offset `h mod chunkSize` of the delivery),
for every hop position h including wrapped ones; and any further `receive`
whose written bucket range avoids h's bucket leaves `peek(h)` unchanged. -/
theorem peek_after_receive (cb : CircularBuffer) (data : List (List Sample)) (h : Nat)
    (hhop : 0 < cb.hopSize) (hchunk : 0 < cb.chunkSize)
    (hdepth : 0 < cb.circularBufferSizeInChunks) (hcc : 0 < cb.channelCount)
    (hlen : data.length = cb.channelCount)
    (hch : ∀ ch ∈ data, ch.length = cb.chunkSize * cb.hopSize)
    (hbuckets : ∀ c, c < cb.channelCount → ∀ b : Int, 0 ≤ b → b < (cb.bucketsCount : Int) →
      (cb.buffer c b).length = cb.hopSize) :
    (((cb.setWritePointer ((h : Nat) : ℚ)).receive data).1).peek ((h : Nat) : ℚ)
        = (List.range cb.channelCount).map
            (fun c => ((data.getD c []).drop ((h % cb.chunkSize) * cb.hopSize)).take cb.hopSize)
    ∧ (∀ (cb2 : CircularBuffer) (data2 : List (List Sample)),
        0 ≤ cb2.bucketWritePointer → cb2.bucketWritePointer < (cb2.bucketsCount : Int) →
        (∀ i : Nat, i < (data2.headD []).length / cb2.hopSize →
          (cb2.bucketWritePointer + (i : Int)) % (cb2.bucketsCount : Int)
            ≠ cb2._hopToPositionPointer ((h : Nat) : ℚ)) →
        ((cb2.receive data2).1).peek ((h : Nat) : ℚ) = cb2.peek ((h : Nat) : ℚ)) := by
  have hNpos : 0 < cb.bucketsCount := Nat.mul_pos hchunk hdepth
  have hN : (0 : Int) < (cb.bucketsCount : Int) := by exact_mod_cast hNpos
  have hw := setWritePointer_natCast cb h
  have hw0 : 0 ≤ (cb.setWritePointer ((h : Nat) : ℚ)).bucketWritePointer := by
    rw [hw]
    exact Int.emod_nonneg _ (by omega)
  have hwN : (cb.setWritePointer ((h : Nat) : ℚ)).bucketWritePointer < (cb.bucketsCount : Int) := by
    rw [hw]
    exact Int.emod_lt_of_pos _ hN
  constructor
  · rw [receive_eq (cb.setWritePointer ((h : Nat) : ℚ)) data cb.chunkSize hhop hcc hlen hch]
    simp only [CircularBuffer.peek, hopToPositionPointer_natCast, bucketsCount_update,
      setWritePointer_bucketsCount, setWritePointer_chunkSize, setWritePointer_depth,
      setWritePointer_channelCount, setWritePointer_hopSize, setWritePointer_buffer]
    apply List.map_congr_left
    intro c hcmem
    have hc : c < cb.channelCount := List.mem_range.mp hcmem
    have hi : h % cb.chunkSize < cb.chunkSize := Nat.mod_lt h hchunk
    have hwrite := receiveGo_written cb.channelCount cb.hopSize (cb.bucketsCount : Int) data
      hN cb.chunkSize 0 ((cb.setWritePointer ((h : Nat) : ℚ)).bucketWritePointer) cb.buffer
      c (h % cb.chunkSize) hw0 hwN hc hi
      (by
        have : cb.chunkSize ≤ cb.bucketsCount := Nat.le_mul_of_pos_right _ hdepth
        exact_mod_cast this)
    have hkey2 : ((h % cb.bucketsCount : Nat) : Int)
        = ((cb.setWritePointer ((h : Nat) : ℚ)).bucketWritePointer
            + ((h % cb.chunkSize : Nat) : Int)) % (cb.bucketsCount : Int) := by
      rw [hw, emod_add_left_emod]
      have h2 : ((h / cb.chunkSize * cb.chunkSize : Nat) : Int)
          + ((h % cb.chunkSize : Nat) : Int) = (h : Int) := by
        have h3 : h / cb.chunkSize * cb.chunkSize + h % cb.chunkSize = h := by
          rw [Nat.mul_comm]
          exact Nat.div_add_mod h cb.chunkSize
        exact_mod_cast h3
      rw [h2]
      push_cast
      ring_nf
    rw [hkey2, hwrite]
    simp only [Nat.zero_add]
    have hbpos : 0 ≤ ((cb.setWritePointer ((h : Nat) : ℚ)).bucketWritePointer
        + ((h % cb.chunkSize : Nat) : Int)) % (cb.bucketsCount : Int) :=
      Int.emod_nonneg _ (by omega)
    have hblt : ((cb.setWritePointer ((h : Nat) : ℚ)).bucketWritePointer
        + ((h % cb.chunkSize : Nat) : Int)) % (cb.bucketsCount : Int) < (cb.bucketsCount : Int) :=
      Int.emod_lt_of_pos _ hN
    have hgetD : (data.getD c []).length = cb.chunkSize * cb.hopSize := by
      rw [List.getD_eq_getElem data [] (by omega)]
      exact hch _ (List.getElem_mem _)
    exact setArray_full _ _ cb.hopSize (hbuckets c hc _ hbpos hblt)
      (hop_slice_length _ cb.hopSize (h % cb.chunkSize) cb.chunkSize hgetD hi)
  · intro cb2 data2 h20 h2N hmiss
    have hN2 : (0 : Int) < (cb2.bucketsCount : Int) := by omega
    rw [CircularBuffer.receive]
    by_cases hc1 : data2.length ≠ cb2.channelCount
    · rw [if_pos hc1]
    · rw [if_neg hc1]
      by_cases hc2 : (jsRound (((data2.headD []).length : ℚ) / (cb2.hopSize : ℚ)) : ℚ) ≠
          ((data2.headD []).length : ℚ) / (cb2.hopSize : ℚ)
      · rw [if_pos hc2]
      · rw [if_neg hc2]
        rw [CircularBuffer.peek, CircularBuffer.peek]
        apply List.map_congr_left
        intro c hcmem
        exact receiveGo_untouched cb2.channelCount cb2.hopSize (cb2.bucketsCount : Int) data2
          hN2 ((data2.headD []).length / cb2.hopSize) 0 cb2.bucketWritePointer cb2.buffer c
          (cb2._hopToPositionPointer ((h : Nat) : ℚ)) h20 h2N hmiss

/-- Witness for C2: chunk size 2, hop 2, one channel, 4 buckets; seek-align to
hop 5, receive the chunk [10,20,30,40], peek hop 5; then a further receive of
[7,8] into bucket 2 leaves the peek unchanged. -/
theorem peek_after_receive_witness :
    ((((CircularBuffer.make 2 2 1 2).setWritePointer ((5 : Nat) : ℚ)).receive
          [[10, 20, 30, 40]]).1).peek ((5 : Nat) : ℚ)
        = (List.range (CircularBuffer.make 2 2 1 2).channelCount).map
            (fun c => (([[10, 20, 30, 40]].getD c []).drop
                ((5 % (CircularBuffer.make 2 2 1 2).chunkSize) *
                  (CircularBuffer.make 2 2 1 2).hopSize)).take
              (CircularBuffer.make 2 2 1 2).hopSize)
    ∧ ((({ CircularBuffer.make 2 2 1 2 with bucketWritePointer := 2 } : CircularBuffer).receive
            [[7, 8]]).1.peek ((5 : Nat) : ℚ)
        = ({ CircularBuffer.make 2 2 1 2 with bucketWritePointer := 2 } : CircularBuffer).peek
            ((5 : Nat) : ℚ)) :=
  ⟨(peek_after_receive (CircularBuffer.make 2 2 1 2) [[10, 20, 30, 40]] 5
      (by decide) (by decide) (by decide) (by decide) (by decide) (by decide)
      (by
        intro c hc b hb0 hbN
        simp only [CircularBuffer.make, CircularBuffer.bucketsCount] at hbN ⊢
        rw [if_pos ⟨hc, hb0, hbN⟩]
        simp)).1,
    (peek_after_receive (CircularBuffer.make 2 2 1 2) [[10, 20, 30, 40]] 5
      (by decide) (by decide) (by decide) (by decide) (by decide) (by decide)
      (by
        intro c hc b hb0 hbN
        simp only [CircularBuffer.make, CircularBuffer.bucketsCount] at hbN ⊢
        rw [if_pos ⟨hc, hb0, hbN⟩]
        simp)).2
      ({ CircularBuffer.make 2 2 1 2 with bucketWritePointer := 2 } : CircularBuffer)
      [[7, 8]] (by decide) (by decide)
      (by
        intro i hi
        have hi0 : i = 0 := by
          simp [CircularBuffer.make] at hi
          omega
        subst hi0
        rw [hopToPositionPointer_natCast]
        decide)⟩

end NativeToWebviewAudio
